import Mathlib

/-!
# Verification of the OpenRetcon OpenAPI → IR converter

This file gives a shallow embedding of `retcon/schema/converter.py` together
with the IR data model of `retcon/schema/{types,objects,enums,paths,webhook,graph}.py`,
and proves the documented properties of the conversion.

The decoded OpenAPI documents (3.0 / 3.1 / 3.2) are modelled version-neutrally:
the converter only reads attributes through `getattr` with defaults, so a
single record type per object kind, carrying exactly the attributes the
converter reads, captures all three families (an attribute absent in one
family is modelled by its `getattr` default, e.g. `nullable = False` in 3.1,
`additionalOperations = {}` outside 3.2).
-/

namespace Retcon

/-- JSON values as decoded by the parser (Python/msgspec: JSON `null` decodes
to `None`, objects keep declaration order).  The converter never computes with
numbers — it only stores and compares them — so one integer-carrying
constructor stands for both `int` and `float` literals. -/
inductive Json where
  | null
  | bool (b : Bool)
  | num (n : Int)
  | str (s : String)
  | arr (elems : List Json)
  | obj (members : List (String × Json))

/-- The scalar test of `_schema_is_enum`:
`isinstance(value, (str, int, float, bool))`.  Python `None`, lists and dicts
are not scalars. -/
def Json.isScalar : Json → Bool
  | .bool _ => true
  | .num _ => true
  | .str _ => true
  | _ => false

/-- IR type references (`retcon/schema/types.py`).  Every variant carries the
`nullable` flag of the base class `TypeRef`; `StringType` / `IntegerType` /
`NumberType` also carry `format`. -/
inductive TypeRef where
  | string (format : Option String) (nullable : Bool)
  | integer (format : Option String) (nullable : Bool)
  | number (format : Option String) (nullable : Bool)
  | boolean (nullable : Bool)
  | array (item_type : TypeRef) (nullable : Bool)
  | map (value_type : TypeRef) (nullable : Bool)
  | union (variants : List TypeRef) (nullable : Bool)
  | modelRef (name : String) (nullable : Bool)
  | enumRef (name : String) (nullable : Bool)
  | any (nullable : Bool)

/-- `isinstance(type_ref, AnyType)` — true for `AnyType` with any nullable flag. -/
def TypeRef.isAny : TypeRef → Bool
  | .any _ => true
  | _ => false

/-- The attributes of a decoded `Schema` object that the converter reads.
`type` is a string or a list of strings (3.1/3.2); `nullable` exists only in
the 3.0 family (`getattr(schema, "nullable", False)` yields `False` elsewhere,
and `bool(None)` is `False`, so a plain `Bool` captures all families).
`enum = []` stands for both an absent and an empty `enum` list (both falsy).
`default` is `Json.null` when the attribute is JSON `null` or undeclared
(the decoded structs declare `default: Any = None`). -/
inductive Schema where
  | mk
    (ref : Option String)
    (type : Option (String ⊕ List String))
    (nullable : Bool)
    (enum : List Json)
    (properties : Option (List (String × Schema)))
    (required : List String)
    (additionalProperties : Option (Bool ⊕ Schema))
    (items : Option Schema)
    (oneOf : List Schema)
    (anyOf : List Schema)
    (allOf : List Schema)
    (format : Option String)
    (description : Option String)
    (default : Json)

def Schema.ref : Schema → Option String
  | .mk r _ _ _ _ _ _ _ _ _ _ _ _ _ => r

def Schema.type : Schema → Option (String ⊕ List String)
  | .mk _ t _ _ _ _ _ _ _ _ _ _ _ _ => t

def Schema.nullable : Schema → Bool
  | .mk _ _ n _ _ _ _ _ _ _ _ _ _ _ => n

def Schema.enum : Schema → List Json
  | .mk _ _ _ e _ _ _ _ _ _ _ _ _ _ => e

def Schema.properties : Schema → Option (List (String × Schema))
  | .mk _ _ _ _ p _ _ _ _ _ _ _ _ _ => p

def Schema.required : Schema → List String
  | .mk _ _ _ _ _ r _ _ _ _ _ _ _ _ => r

def Schema.additionalProperties : Schema → Option (Bool ⊕ Schema)
  | .mk _ _ _ _ _ _ a _ _ _ _ _ _ _ => a

def Schema.items : Schema → Option Schema
  | .mk _ _ _ _ _ _ _ i _ _ _ _ _ _ => i

def Schema.oneOf : Schema → List Schema
  | .mk _ _ _ _ _ _ _ _ o _ _ _ _ _ => o

def Schema.anyOf : Schema → List Schema
  | .mk _ _ _ _ _ _ _ _ _ a _ _ _ _ => a

def Schema.allOf : Schema → List Schema
  | .mk _ _ _ _ _ _ _ _ _ _ a _ _ _ => a

def Schema.format : Schema → Option String
  | .mk _ _ _ _ _ _ _ _ _ _ _ f _ _ => f

def Schema.description : Schema → Option String
  | .mk _ _ _ _ _ _ _ _ _ _ _ _ d _ => d

def Schema.default : Schema → Json
  | .mk _ _ _ _ _ _ _ _ _ _ _ _ _ d => d

/-- A schema object with every attribute at its decoded default. -/
def emptySchema : Schema :=
  .mk none none false [] none [] none none [] [] [] none none .null

/-- Python truthiness of an optional string attribute:
`if getattr(x, "ref", None):` is entered only for a present, non-empty string. -/
def strTruthy : Option String → Bool
  | some s => s != ""
  | none => false

/-- Python truthiness of `getattr(schema, "properties", None)`:
true only for a present, non-empty dict. -/
def propsTruthy : Option (List (String × Schema)) → Bool
  | some l => !l.isEmpty
  | none => false

/-! ## IR entities (`objects.py`, `enums.py`, `paths.py`, `webhook.py`, `graph.py`) -/

/-- `Field`: `default` is three-state in the source (`msgspec.UNSET` = absent,
or a value); `none` here is the absent state. -/
structure Field where
  name : String
  type : TypeRef
  required : Bool
  description : Option String
  default : Option Json

structure Model where
  name : String
  fields : List Field
  description : Option String

structure EnumValue where
  name : String
  value : Json

structure Enum where
  name : String
  values : List EnumValue
  description : Option String

structure Parameter where
  name : String
  location : String
  type : TypeRef
  required : Bool
  description : Option String

structure RequestBody where
  content_type : String
  type : TypeRef
  required : Bool
  description : Option String

structure Response where
  status_code : String
  description : Option String
  content : List (String × TypeRef)

structure Operation where
  method : String
  path : String
  operation_id : String
  summary : Option String
  description : Option String
  tags : List String
  parameters : List Parameter
  request_body : Option RequestBody
  responses : List Response
  deprecated : Bool

structure Endpoint where
  path : String
  operations : List Operation
  description : Option String

structure Webhook where
  name : String
  operations : List Operation
  description : Option String

structure APISchema where
  title : String
  version : String
  description : Option String
  models : List Model
  enums : List Enum
  endpoints : List Endpoint
  webhooks : List Webhook

/-! ## Decoded OpenAPI objects (attributes read by the converter) -/

structure MediaType where
  schema : Option Schema

structure OASParameter where
  ref : Option String
  name : Option String
  in_ : Option String
  schema : Option Schema
  content : List (String × MediaType)
  required : Bool
  description : Option String

structure OASRequestBody where
  ref : Option String
  content : List (String × MediaType)
  required : Bool
  description : Option String

structure OASResponse where
  ref : Option String
  content : List (String × MediaType)
  description : Option String

structure OASOperation where
  operationId : Option String
  summary : Option String
  description : Option String
  tags : List String
  parameters : List OASParameter
  requestBody : Option OASRequestBody
  responses : List (String × OASResponse)
  deprecated : Bool

/-- A decoded path item.  `additionalOperations` exists only in the 3.2
family; for 3.0/3.1 documents the `getattr` default `{}` applies, i.e. `[]`. -/
structure PathItem where
  parameters : List OASParameter
  get : Option OASOperation
  put : Option OASOperation
  post : Option OASOperation
  delete : Option OASOperation
  options : Option OASOperation
  head : Option OASOperation
  patch : Option OASOperation
  trace : Option OASOperation
  query : Option OASOperation
  additionalOperations : List (String × OASOperation)
  description : Option String

/-- The parts of a decoded `OpenAPI` object that `_convert_openapi` reads:
`info.title`, `info.version`, `info.description`, `components.schemas`
(`{}` when `components` or `schemas` is missing/falsy), `paths` and
`webhooks` (`{}` when missing; 3.0 has no `webhooks` attribute). -/
structure OpenAPI where
  title : String
  version : String
  description : Option String
  schemas : List (String × Schema)
  paths : List (String × PathItem)
  webhooks : List (String × PathItem)

/-- `_ConversionContext`: the two classified name sets, modelled as
duplicate-free lists with membership via `contains`. -/
structure ConversionContext where
  enum_names : List String
  model_names : List String

/-! ## String machinery shared by `_build_default_operation_id` and
`_to_enum_member_name` -/

/-- `[0-9A-Za-z_]`, the characters `re.sub(r"[^0-9A-Za-z_]+", "_", ...)` keeps. -/
def isIdChar (c : Char) : Bool := c.isAlphanum || c == '_'

/-- `[0-9A-Za-z]`, the characters `re.sub(r"[^0-9A-Za-z]+", "_", ...)` keeps. -/
def isAlnumChar (c : Char) : Bool := c.isAlphanum

/-- `re.sub(r"[^...]+", "_", s)`: every maximal run of characters not
satisfying `keep` is replaced by a single underscore.  `inRun` records whether
the previous character belonged to such a run. -/
def collapseRunsAux (keep : Char → Bool) (inRun : Bool) : List Char → List Char
  | [] => []
  | c :: rest =>
    if keep c then c :: collapseRunsAux keep false rest
    else if inRun then collapseRunsAux keep true rest
    else '_' :: collapseRunsAux keep true rest

def collapseRuns (keep : Char → Bool) (l : List Char) : List Char :=
  collapseRunsAux keep false l

/-- Python `str.strip(c)`: remove every leading and trailing occurrence of `c`. -/
def stripChar (c : Char) (l : List Char) : List Char :=
  ((l.dropWhile (· == c)).reverse.dropWhile (· == c)).reverse

/-- Python `str.lower()` (the converter only ever lower-cases ASCII ids). -/
def strLower (s : String) : String :=
  String.mk (s.toList.map Char.toLower)

def pathOpsRefPath : String := "#/paths/"

def schemasRefPath : String := "#/components/schemas/"

/-- Python `s.startswith(p)`, expressed on the character lists. -/
def strStarts (s p : String) : Bool := p.toList.isPrefixOf s.toList

/-- Python slicing `s[n:]`, expressed on the character lists. -/
def strDropN (s : String) (n : Nat) : String := String.mk (s.toList.drop n)

/-- `_build_default_operation_id(method, path, is_webhook=...)`. -/
def build_default_operation_id (method path : String) (is_webhook : Bool) : String :=
  let pfx := if is_webhook then "webhook" else "op"
  let normalized := if strStarts path pathOpsRefPath then strDropN path pathOpsRefPath.length else path
  let base := pfx ++ "_" ++ method ++ "_" ++ normalized
  let chars := base.toList.filter (fun c => c != '\x7b' && c != '\x7d')
  let chars := collapseRuns isIdChar chars
  String.mk ((stripChar '_' chars).map Char.toLower)

/-- `_extract_schema_ref_name(ref)`. -/
def extract_schema_ref_name (r : String) : Option String :=
  if strStarts r schemasRefPath then some (strDropN r schemasRefPath.length) else none

/-! ## Nullability extraction and schema classification -/

/-- The loop of `_extract_nullable_type` over a list-valued `type`: a
`"null"` entry sets the nullable flag, every other entry (always a string in
a decoded document) is collected in order. -/
def extractNullableLoop (nullable : Bool) (acc : List String) : List String → Bool × List String
  | [] => (nullable, acc)
  | v :: rest =>
    if v == "null" then extractNullableLoop true acc rest
    else extractNullableLoop nullable (acc ++ [v]) rest

/-- `_extract_nullable_type(schema)`: the nullable flag and the effective
type name. -/
def extract_nullable_type (s : Schema) : Bool × Option String :=
  match s.type with
  | some (.inr values) =>
    let r := extractNullableLoop s.nullable [] values
    (r.1, r.2.head?)
  | some (.inl t) => (s.nullable, some t)
  | none => (s.nullable, none)

/-- The comparison `_extract_nullable_type(schema)[0] == "object"` in
`_schema_is_model` compares a Python `bool` with a `str`; `==` between
values of these two types is always `False` in Python, so the embedded
comparison is constantly false. -/
def pyBoolEqStr (_b : Bool) (_s : String) : Bool := false

/-- `_schema_is_enum(schema)`. -/
def schema_is_enum (s : Schema) : Bool :=
  if strTruthy s.ref then false
  else if s.enum.isEmpty then false
  else s.enum.all Json.isScalar

/-- `_schema_is_model(schema)`. -/
def schema_is_model (s : Schema) : Bool :=
  if strTruthy s.ref || schema_is_enum s then false
  else if pyBoolEqStr (extract_nullable_type s).1 "object" || propsTruthy s.properties then true
  else false

/-! ## Enum conversion -/

/-- `_to_enum_member_name(value, index)`. -/
def to_enum_member_name (value : Json) (index : Nat) : String :=
  let candidate :=
    match value with
    | .str s => String.mk ((stripChar '_' (collapseRuns isAlnumChar s.toList)).map Char.toUpper)
    | _ => ""
  let candidate := if candidate == "" then "VALUE_" ++ toString index else candidate
  if (candidate.toList.head?.map Char.isDigit).getD false then "VALUE_" ++ candidate
  else candidate

/-- `while member_name in used_names: member_name = f"{member_name}_{index}"`.
Every iteration strictly lengthens the candidate, so successive candidates
are pairwise distinct and each collision consumes a distinct member of the
finite used set; `used.length + 1` membership tests therefore always reach a
fresh name, and the loop is embedded with that iteration bound. -/
def uniquifyName (used : List String) (index : Nat) : Nat → String → String
  | 0, name => name
  | fuel + 1, name =>
    if used.contains name then uniquifyName used index fuel (name ++ "_" ++ toString index)
    else name

/-- The member loop of `_convert_enum`: derive a name for each literal,
de-collide it against the names already used, record it as used. -/
def convertEnumValues (used : List String) (index : Nat) : List Json → List EnumValue
  | [] => []
  | v :: rest =>
    let base := to_enum_member_name v index
    let member := uniquifyName used index (used.length + 1) base
    { name := member, value := v } :: convertEnumValues (member :: used) (index + 1) rest

/-- `_convert_enum(name, schema)`. -/
def convert_enum (name : String) (s : Schema) : Enum :=
  { name := name, values := convertEnumValues [] 0 s.enum, description := s.description }

/-! ## Type resolution -/

/-- `_to_type_ref(schema, context)` on a present (non-`None`, non-boolean)
schema object, in the source's priority order: `$ref`, then `oneOf`/`anyOf`/
`allOf` flattened into one union, then array, then object/map, then scalars. -/
def to_type_ref (ctx : ConversionContext) : Schema → TypeRef
  | s@(.mk ref _ _ _ properties _ additionalProperties items oneOf anyOf allOf format _ _) =>
    match ref with
    | some r =>
      match extract_schema_ref_name r with
      | some refName =>
        if refName != "" then
          if ctx.enum_names.contains refName then .enumRef refName false
          else if ctx.model_names.contains refName then .modelRef refName false
          else .any false
        else .any false
      | none => .any false
    | none =>
      let nt := extract_nullable_type s
      let unionVariants :=
        (oneOf.attach.map fun v => to_type_ref ctx v.1)
          ++ (anyOf.attach.map fun v => to_type_ref ctx v.1)
          ++ (allOf.attach.map fun v => to_type_ref ctx v.1)
      if !unionVariants.isEmpty then .union unionVariants nt.1
      else if nt.2 == some "array" then
        match items with
        | some itemSchema => .array (to_type_ref ctx itemSchema) nt.1
        | none => .array (.any false) nt.1
      else if nt.2 == some "object" || properties.isSome || additionalProperties.isSome then
        match additionalProperties with
        | some (.inr additional) => .map (to_type_ref ctx additional) nt.1
        | _ => .map (.any false) nt.1
      else if nt.2 == some "integer" then .integer format nt.1
      else if nt.2 == some "number" then .number format nt.1
      else if nt.2 == some "string" then .string format nt.1
      else if nt.2 == some "boolean" then .boolean nt.1
      else .any nt.1
termination_by s => sizeOf s
decreasing_by
  all_goals simp_wf
  · have := List.sizeOf_lt_of_mem v.2
    omega
  · have := List.sizeOf_lt_of_mem v.2
    omega
  · have := List.sizeOf_lt_of_mem v.2
    omega
  · omega
  · omega

/-- `_to_type_ref` applied to a maybe-missing schema attribute
(`schema is None` yields `AnyType()`). -/
def to_type_ref_opt (ctx : ConversionContext) : Option Schema → TypeRef
  | none => .any false
  | some s => to_type_ref ctx s

/-! ## Model conversion -/

/-- `_convert_model(name, schema, context)`: one `Field` per declared
property, in declaration order.  A `default` that is JSON `null` — which is
how both a declared `null` and an undeclared default decode — is not carried
onto the field (`field_default is not None` fails), any other literal is. -/
def convert_model (name : String) (s : Schema) (ctx : ConversionContext) : Model :=
  let properties := s.properties.getD []
  { name := name,
    fields := properties.map fun p =>
      { name := p.1,
        type := to_type_ref ctx p.2,
        required := s.required.contains p.1,
        description := p.2.description,
        default := match p.2.default with
          | .null => none
          | d => some d },
    description := s.description }

/-! ## Media types, parameters, bodies, responses -/

/-- `_pick_primary_media_type(content)`: prefer `application/json`, else the
first declared entry; `None` on an empty map. -/
def pick_primary_media_type (content : List (String × MediaType)) : Option (String × MediaType) :=
  if content.isEmpty then none
  else
    match content.lookup "application/json" with
    | some media => some ("application/json", media)
    | none => content.head?

/-- `_convert_parameter(parameter, context)`: drops bare references and
entries missing a truthy `name` or `in`; falls back to the primary media
type's schema when the inline schema resolves to `Any`; forces `required`
for path parameters.  (The defensive `parameter is None` test of the source
is unrepresentable here: decoded parameter lists never contain `None`.) -/
def convert_parameter (p : OASParameter) (ctx : ConversionContext) : Option Parameter :=
  if strTruthy p.ref then none
  else if !strTruthy p.name || !strTruthy p.in_ then none
  else
    let t0 := to_type_ref_opt ctx p.schema
    let t :=
      if t0.isAny then
        match pick_primary_media_type p.content with
        | some media => to_type_ref_opt ctx media.2.schema
        | none => t0
      else t0
    let location := p.in_.getD ""
    some
      { name := p.name.getD "",
        location := location,
        type := t,
        required := if location == "path" then true else p.required,
        description := p.description }

def paramKey (p : Parameter) : String × String := (p.name, p.location)

/-- The index of the first entry of `merged` whose `(name, location)` key is
`k`.  The source keeps `index_by_key: key → index into merged`; since
`merged` holds exactly one entry per key, that dict lookup is exactly the
index of the first (unique) entry with the incoming key. -/
def findKeyIdx (k : String × String) : List Parameter → Option Nat
  | [] => none
  | q :: rest => if paramKey q == k then some 0 else (findKeyIdx k rest).map (· + 1)

/-- One step of the `_merge_parameters` loop: a fresh key is appended, a
known key replaces the entry in place. -/
def mergeStep (merged : List Parameter) (p : Parameter) : List Parameter :=
  match findKeyIdx (paramKey p) merged with
  | none => merged ++ [p]
  | some i => merged.set i p

/-- `_merge_parameters(path_level, operation_level, context)`. -/
def merge_parameters (pl ol : List OASParameter) (ctx : ConversionContext) : List Parameter :=
  ((pl ++ ol).filterMap (fun p => convert_parameter p ctx)).foldl mergeStep []

/-- `_convert_request_body(request_body, context)`. -/
def convert_request_body (rb : Option OASRequestBody) (ctx : ConversionContext) : Option RequestBody :=
  match rb with
  | none => none
  | some rb =>
    if strTruthy rb.ref then none
    else
      match pick_primary_media_type rb.content with
      | none => none
      | some media =>
        some
          { content_type := media.1,
            type := to_type_ref_opt ctx media.2.schema,
            required := rb.required,
            description := rb.description }

/-- `_convert_response(status_code, response, context)`: every declared media
type is retained; bare references are dropped. -/
def convert_response (status : String) (r : OASResponse) (ctx : ConversionContext) : Option Response :=
  if strTruthy r.ref then none
  else
    some
      { status_code := status,
        description := r.description,
        content := r.content.map fun p => (p.1, to_type_ref_opt ctx p.2.schema) }

/-! ## Operations, path items, documents -/

/-- `_convert_operation(method, path, operation, path_level_parameters,
context, is_webhook=...)`. -/
def convert_operation (method path : String) (op : OASOperation)
    (pathLevelParameters : List OASParameter) (ctx : ConversionContext)
    (is_webhook : Bool) : Operation :=
  { method := strLower method,
    path := path,
    operation_id :=
      if strTruthy op.operationId then op.operationId.getD ""
      else build_default_operation_id method path is_webhook,
    summary := op.summary,
    description := op.description,
    tags := op.tags,
    parameters := merge_parameters pathLevelParameters op.parameters ctx,
    request_body := convert_request_body op.requestBody ctx,
    responses := op.responses.filterMap (fun p => convert_response p.1 p.2 ctx),
    deprecated := op.deprecated }

/-- `_OPERATION_FIELDS`, paired with the operation stored in each fixed slot. -/
def methodSlots (item : PathItem) : List (String × Option OASOperation) :=
  [("get", item.get), ("put", item.put), ("post", item.post),
   ("delete", item.delete), ("options", item.options), ("head", item.head),
   ("patch", item.patch), ("trace", item.trace), ("query", item.query)]

/-- `_convert_path_item(path, path_item, context, is_webhook=...)`: the fixed
method slots in `_OPERATION_FIELDS` order, then the `additionalOperations`
entries (method names lower-cased) in declaration order. -/
def convert_path_item (path : String) (item : PathItem) (ctx : ConversionContext)
    (is_webhook : Bool) : List Operation :=
  ((methodSlots item).filterMap fun slot =>
    match slot.2 with
    | none => none
    | some op => some (convert_operation slot.1 path op item.parameters ctx is_webhook))
  ++ item.additionalOperations.map fun p =>
      convert_operation (strLower p.1) path p.2 item.parameters ctx is_webhook

/-- `_convert_paths(spec, context)`: a path item whose conversion yields no
operation is skipped entirely. -/
def convert_paths (paths : List (String × PathItem)) (ctx : ConversionContext) : List Endpoint :=
  paths.filterMap fun p =>
    let ops := convert_path_item p.1 p.2 ctx false
    if ops.isEmpty then none
    else some { path := p.1, operations := ops, description := p.2.description }

/-- `_convert_webhooks(spec, context)`: a webhook whose conversion yields no
operation is skipped entirely. -/
def convert_webhooks (webhooks : List (String × PathItem)) (ctx : ConversionContext) : List Webhook :=
  webhooks.filterMap fun p =>
    let ops := convert_path_item p.1 p.2 ctx true
    if ops.isEmpty then none
    else some { name := p.1, operations := ops, description := p.2.description }

/-! ## Document conversion -/

/-- `enum_names = {name for name, schema in schemas.items() if _schema_is_enum(schema)}`:
the key set, as a duplicate-free list. -/
def enumNames (schemas : List (String × Schema)) : List String :=
  ((schemas.filter fun p => schema_is_enum p.2).map Prod.fst).dedup

/-- `model_names = {name ... if _schema_is_model(schema) and name not in enum_names}`. -/
def modelNames (schemas : List (String × Schema)) : List String :=
  ((schemas.filter fun p => schema_is_model p.2 && !(enumNames schemas).contains p.1).map Prod.fst).dedup

def conversionContext (schemas : List (String × Schema)) : ConversionContext :=
  { enum_names := enumNames schemas, model_names := modelNames schemas }

/-- `sorted(names)`: Python's lexicographic (code-point) string sort. -/
def sortNames (l : List String) : List String :=
  l.mergeSort (fun a b => decide (a ≤ b))

/-- `schemas[name]` for a name drawn from the keys of `schemas`; the fallback
value is never reached on such names (a dict lookup on its own keys cannot fail). -/
def lookupSchema (schemas : List (String × Schema)) (n : String) : Schema :=
  (schemas.lookup n).getD emptySchema

/-- `_convert_openapi(spec)`. -/
def convert_openapi (spec : OpenAPI) : APISchema :=
  let schemas := spec.schemas
  let ctx := conversionContext schemas
  { title := spec.title,
    version := spec.version,
    description := spec.description,
    enums := (sortNames (enumNames schemas)).map fun n => convert_enum n (lookupSchema schemas n),
    models := (sortNames (modelNames schemas)).map fun n => convert_model n (lookupSchema schemas n) ctx,
    endpoints := convert_paths spec.paths ctx,
    webhooks := convert_webhooks spec.webhooks ctx }

/-! ## Characterization helpers (specification side)

These definitions restate behaviours in the spec's vocabulary; the theorems
below compare the converter against them. -/

/-- The keys of a sequence in first-occurrence order, duplicates dropped —
the key order a Python dict keyed insertion produces. -/
def firstKeysAux (seen : List (String × String)) : List (String × String) → List (String × String)
  | [] => []
  | k :: rest => if seen.contains k then firstKeysAux seen rest else k :: firstKeysAux (k :: seen) rest

def firstKeys (l : List (String × String)) : List (String × String) :=
  firstKeysAux [] l

/-- The last parameter of `cs` carrying key `k` (the "last-declared-wins"
value of the spec). -/
def lastWithKey (cs : List Parameter) (k : String × String) : Option Parameter :=
  (cs.filter fun q => paramKey q == k).getLast?

/-- Whether a JSON value is the `null` literal. -/
def Json.isNull : Json → Bool
  | .null => true
  | _ => false

/-- A schema object that carries only a `$ref` (any further attribute of a
ref node is ignored by the converter). -/
def refOnlySchema (r : String) : Schema :=
  .mk (some r) none false [] none [] none none [] [] [] none none .null

/-! ## Concrete example inputs used by the claims -/

/-- A schema `{"type": t}` declaring nothing else. -/
def scalarSchema (t : String) : Schema :=
  .mk none (some (.inl t)) false [] none [] none none [] [] [] none none .null

/-- `{"type": "object"}` — object-typed, no properties. -/
def objectOnlySchema : Schema :=
  .mk none (some (.inl "object")) false [] none [] none none [] [] [] none none .null

/-- `{"type": "string", "nullable": true}` (3.0 family). -/
def schema30NullableString : Schema :=
  .mk none (some (.inl "string")) true [] none [] none none [] [] [] none none .null

/-- `{"type": ["string", "null"]}` (3.1/3.2 families). -/
def schema31NullableString : Schema :=
  .mk none (some (.inr ["string", "null"])) false [] none [] none none [] [] [] none none .null

/-- `{"enum": ["active", "inactive-1"]}` — a classified enum schema. -/
def statusEnumSchema : Schema :=
  .mk none none false [.str "active", .str "inactive-1"] none [] none none [] [] [] none none .null

/-- `{"type": "object", "properties": {"name": {"type": "string"}}, "required": ["name"]}`. -/
def petModelSchema : Schema :=
  .mk none (some (.inl "object")) false [] (some [("name", scalarSchema "string")]) ["name"]
    none none [] [] [] none none .null

/-- A model schema whose properties carry a `0` default and a `null` default. -/
def defaultsModelSchema : Schema :=
  .mk none (some (.inl "object")) false []
    (some
      [("count", .mk none (some (.inl "integer")) false [] none [] none none [] [] [] none none (.num 0)),
       ("note", .mk none (some (.inl "string")) false [] none [] none none [] [] [] none none .null)])
    [] none none [] [] [] none none .null

/-- `{"nullable": true, "oneOf": [{"type": "string"}], "allOf": [{"type": "integer"}]}`. -/
def unionExampleSchema : Schema :=
  .mk none none true [] none [] none none [scalarSchema "string"] [] [scalarSchema "integer"]
    none none .null

/-- An operation object declaring nothing — in particular no `operationId`. -/
def emptyOASOperation : OASOperation :=
  { operationId := none, summary := none, description := none, tags := [],
    parameters := [], requestBody := none, responses := [], deprecated := false }

/-- The path-level parameter `{"name": "id", "in": "path"}`. -/
def pathIdParameter : OASParameter :=
  { ref := none, name := some "id", in_ := some "path", schema := none,
    content := [], required := false, description := none }

/-- The operation-level parameter `{"name": "id", "in": "path", "required": false}`. -/
def opIdParameter : OASParameter :=
  { ref := none, name := some "id", in_ := some "path", schema := none,
    content := [], required := false, description := none }

/-- The merge result of the C5 example: one path parameter, required forced. -/
def idPathMergedParam : Parameter :=
  { name := "id", location := "path", type := .any false, required := true, description := none }

/-- A path item with no operation in any slot. -/
def emptyPathItem : PathItem :=
  { parameters := [], get := none, put := none, post := none, delete := none,
    options := none, head := none, patch := none, trace := none, query := none,
    additionalOperations := [], description := none }

/-- A path item declaring a single `get` operation. -/
def getOnlyPathItem : PathItem :=
  { emptyPathItem with get := some emptyOASOperation }

/-- Failing input for the model-classification claim: a document whose only
component schema is `{"type": "object"}` with no properties. -/
def objectOnlyDoc : OpenAPI :=
  { title := "t", version := "1", description := none,
    schemas := [("Data", objectOnlySchema)], paths := [], webhooks := [] }

/-- A document with one enum schema and one model schema, keys deliberately
out of lexicographic order, one path and one webhook. -/
def sampleDoc : OpenAPI :=
  { title := "t", version := "1", description := none,
    schemas := [("Status", statusEnumSchema), ("Pet", petModelSchema)],
    paths := [("/empty", emptyPathItem), ("/pets", getOnlyPathItem)],
    webhooks := [("ping", emptyPathItem)] }

/-! ## Shared lemmas -/

theorem json_match_null_eq_if (d : Json) :
    (match d with | .null => (none : Option Json) | x => some x)
      = if d.isNull then none else some d := by
  cases d <;> rfl

theorem attach_map_fst {α : Type} {β : Type} (l : List α) (f : α → β) :
    (l.attach.map fun v => f v.1) = l.map f :=
  List.attach_map_val l f

theorem extractNullableLoop_spec (l : List String) (n : Bool) (acc : List String) :
    extractNullableLoop n acc l
      = (n || l.contains "null", acc ++ l.filter fun v => v != "null") := by
  induction l generalizing n acc with
  | nil => simp [extractNullableLoop]
  | cons v rest ih =>
    by_cases hv : v = "null"
    · subst hv
      simp only [extractNullableLoop, beq_self_eq_true, if_pos]
      rw [ih]
      simp [List.filter_cons, List.contains_cons]
    · have hv2 : (v == "null") = false := by simpa using hv
      simp only [extractNullableLoop, hv2, Bool.false_eq_true, if_neg, not_false_iff]
      rw [ih]
      simp [List.filter_cons, List.contains_cons, hv2, hv, Ne.symm hv, Bool.or_assoc]

/-! ## C1 — operation id synthesis -/

/-- **C1** (counterexample to the claim as stated): a `GET /pets/{id}` path
operation with no declared `operationId` synthesizes `op_get__pets_id` — the
slash after `op_get_` collapses to an underscore of its own next to the
separator underscore already present — not `op_get_pets_id`. -/
theorem operationId_pets_counterexample :
    (convert_operation ("get") ("/pets/\x7bid\x7d") emptyOASOperation [] ⟨[], []⟩ false).operation_id
        = "op_get__pets_id"
    ∧ ("op_get__pets_id" : String) ≠ "op_get_pets_id" := by
  exact ⟨by decide, by decide⟩

/-- **C1** (amended): a path operation with no truthy declared `operationId`
gets the synthesized id `<prefix>_<method>_<normalized-path>` (prefix `op`
for path operations, `webhook` for webhooks, braces removed, runs of
non-alphanumeric/underscore characters collapsed to `_`, lower-cased and
stripped of leading/trailing `_`); in particular `GET /pets/{id}` yields
`op_get__pets_id`. -/
theorem operationId_synthesis (method path : String) (op : OASOperation)
    (pl : List OASParameter) (ctx : ConversionContext) (wh : Bool)
    (h : strTruthy op.operationId = false) :
    (convert_operation method path op pl ctx wh).operation_id
        = build_default_operation_id method path wh
    ∧ build_default_operation_id ("get") ("/pets/\x7bid\x7d") false = "op_get__pets_id"
    ∧ build_default_operation_id ("get") ("/pets/\x7bid\x7d") true = "webhook_get__pets_id" := by
  refine ⟨?_, by decide, by decide⟩
  simp [convert_operation, h]

theorem operationId_synthesis_witness :
    strTruthy emptyOASOperation.operationId = false
    ∧ (convert_operation ("post") ("/a") emptyOASOperation [] ⟨[], []⟩ false).operation_id
        = build_default_operation_id ("post") ("/a") false :=
  ⟨by decide,
   (operationId_synthesis ("post") ("/a") emptyOASOperation [] ⟨[], []⟩ false (by decide)).1⟩

/-! ## C2 — object-typed schemas without properties are (wrongly) not models -/

/-- **C2** (the code contradicts the claim): `{"type": "object"}` with no
properties is not classified as a model, and the document whose only
component schema is such a schema converts to an empty models registry.
The cause is `_schema_is_model` testing
`_extract_nullable_type(schema)[0] == "object"`: index `[0]` is the nullable
*bool*, never equal to the string `"object"` in Python, so the
object-typed test can never fire and only `properties` can make a model. -/
theorem object_without_properties_not_model :
    schema_is_model objectOnlySchema = false
    ∧ pyBoolEqStr (extract_nullable_type objectOnlySchema).1 "object" = false
    ∧ (extract_nullable_type objectOnlySchema).2 = some "object"
    ∧ (convert_openapi objectOnlyDoc).models = []
    ∧ (convert_openapi objectOnlyDoc).enums = [] := by
  have hm : modelNames objectOnlyDoc.schemas = [] := by decide
  have he : enumNames objectOnlyDoc.schemas = [] := by decide
  refine ⟨by decide, by decide, by decide, ?_, ?_⟩
  · simp [convert_openapi, hm, sortNames]
  · simp [convert_openapi, he, sortNames]

/-! ## C6 — nullable scalars, 3.0 flag form and 3.1 list form -/

/-- **C6**: a 3.0 `nullable: true, type: "string"` schema and a 3.1
`type: ["string", "null"]` schema both resolve to a nullable `String`; in
the list form, the presence of `"null"` sets the nullable flag and the first
non-null entry is the effective type name. -/
theorem nullable_scalar_resolution (ctx : ConversionContext) (s : Schema)
    (values : List String) (h : s.type = some (.inr values)) :
    extract_nullable_type s
        = (s.nullable || values.contains "null", (values.filter fun v => v != "null").head?)
    ∧ to_type_ref ctx schema30NullableString = .string none true
    ∧ to_type_ref ctx schema31NullableString = .string none true := by
  refine ⟨?_, ?_, ?_⟩
  · rw [extract_nullable_type, h]
    show (let r := extractNullableLoop s.nullable [] values; (r.1, r.2.head?)) = _
    simp [extractNullableLoop_spec]
  · simp [schema30NullableString, to_type_ref, extract_nullable_type, Schema.type,
      Schema.nullable]
  · simp [schema31NullableString, to_type_ref, extract_nullable_type, Schema.type,
      Schema.nullable, extractNullableLoop]

theorem nullable_scalar_resolution_witness :
    schema31NullableString.type = some (.inr ["string", "null"])
    ∧ extract_nullable_type schema31NullableString
        = (schema31NullableString.nullable || (["string", "null"] : List String).contains "null",
           ((["string", "null"] : List String).filter fun v => v != "null").head?) :=
  ⟨rfl, (nullable_scalar_resolution ⟨[], []⟩ schema31NullableString ["string", "null"] rfl).1⟩

/-! ## C7 — null and absent defaults collapse, other literals are carried -/

/-- **C7**: for every model property, the produced field's default is absent
when the declared default decodes to JSON `null` (which is also how an
undeclared default decodes), and is the declared literal otherwise; in
particular a `0` default is carried and a `null` default is dropped. -/
theorem default_suppression (name : String) (s : Schema) (ctx : ConversionContext)
    (i : Nat) (h : i < (s.properties.getD []).length) :
    (convert_model name s ctx).fields.length = (s.properties.getD []).length
    ∧ ((convert_model name s ctx).fields[i]?).map Field.default
        = some (if (((s.properties.getD []).get ⟨i, h⟩).2.default).isNull then none
                else some ((s.properties.getD []).get ⟨i, h⟩).2.default)
    ∧ ((convert_model ("M") defaultsModelSchema ctx).fields.map Field.default)
        = [some (.num 0), none] := by
  refine ⟨by simp [convert_model], ?_, ?_⟩
  · have hlen : i < ((convert_model name s ctx).fields).length := by
      simpa [convert_model] using h
    rw [List.getElem?_eq_getElem hlen]
    simp only [convert_model, List.getElem_map, Option.map_some]
    rw [json_match_null_eq_if]
    simp [List.get_eq_getElem]
  · simp [convert_model, defaultsModelSchema, Schema.properties, Schema.description,
      Schema.required, Schema.default, json_match_null_eq_if, Json.isNull]

theorem default_suppression_witness :
    0 < ((defaultsModelSchema.properties.getD []).length)
    ∧ (convert_model ("M") defaultsModelSchema ⟨[], []⟩).fields.length
        = (defaultsModelSchema.properties.getD []).length :=
  ⟨by decide, (default_suppression ("M") defaultsModelSchema ⟨[], []⟩ 0 (by decide)).1⟩

/-! ## C8 — reference resolution -/

theorem to_type_ref_of_ref (ctx : ConversionContext) (s : Schema) (r : String)
    (h : s.ref = some r) :
    to_type_ref ctx s
      = (match extract_schema_ref_name r with
         | some refName =>
           if refName != "" then
             if ctx.enum_names.contains refName then .enumRef refName false
             else if ctx.model_names.contains refName then .modelRef refName false
             else .any false
           else .any false
         | none => .any false) := by
  cases s with
  | mk ref type nullable enum properties required additionalProperties items oneOf anyOf allOf fmt desc dflt =>
    simp only [Schema.ref] at h
    subst h
    simp [to_type_ref]

/-- **C8**: a schema carrying a `$ref` resolves purely from the ref string
and the classification context — every other attribute of the node is
ignored; a ref with the `#/components/schemas/` prefix and a non-empty name
resolves to `EnumRef` for enum-classified names, `ModelRef` for
model-classified names, and `Any` otherwise; a ref without the prefix, or
with an empty name, resolves to `Any`. -/
theorem ref_resolution (ctx : ConversionContext) (s s2 : Schema) (r n : String)
    (h : s.ref = some r) (h2 : s2.ref = some r)
    (hx : extract_schema_ref_name r = some n) (hn : n ≠ "") :
    to_type_ref ctx s = to_type_ref ctx s2
    ∧ to_type_ref ctx s
        = (if ctx.enum_names.contains n then .enumRef n false
           else if ctx.model_names.contains n then .modelRef n false
           else .any false)
    ∧ (∀ r2 (s3 : Schema), s3.ref = some r2 → extract_schema_ref_name r2 = none →
        to_type_ref ctx s3 = .any false)
    ∧ (∀ s4 : Schema, s4.ref = some schemasRefPath → to_type_ref ctx s4 = .any false) := by
  refine ⟨?_, ?_, ?_, ?_⟩
  · rw [to_type_ref_of_ref ctx s r h, to_type_ref_of_ref ctx s2 r h2]
  · rw [to_type_ref_of_ref ctx s r h, hx]
    simp [hn]
  · intro r2 s3 h3 hx2
    rw [to_type_ref_of_ref ctx s3 r2 h3, hx2]
  · intro s4 h4
    rw [to_type_ref_of_ref ctx s4 schemasRefPath h4]
    have : extract_schema_ref_name schemasRefPath = some "" := by decide
    rw [this]
    simp

theorem ref_resolution_witness :
    (refOnlySchema ("#/components/schemas/Foo")).ref = some "#/components/schemas/Foo"
    ∧ extract_schema_ref_name ("#/components/schemas/Foo") = some "Foo"
    ∧ to_type_ref ⟨["Foo"], ["Bar"]⟩ (refOnlySchema ("#/components/schemas/Foo"))
        = .enumRef "Foo" false :=
  ⟨rfl, by decide, by
    have hr := (ref_resolution ⟨["Foo"], ["Bar"]⟩ (refOnlySchema ("#/components/schemas/Foo"))
      (refOnlySchema ("#/components/schemas/Foo")) ("#/components/schemas/Foo") ("Foo")
      rfl rfl (by decide) (by decide)).2.1
    simpa using hr⟩

/-! ## C9 — union flattening -/

/-- **C9**: a non-ref schema declaring any of `oneOf`, `anyOf`, `allOf`
resolves to a single `Union` whose variant list is the flattened
concatenation of all three keyword lists, with the schema's own nullable
flag attached to the union as a whole and each variant resolved unchanged. -/
theorem union_flattening (ctx : ConversionContext) (s : Schema)
    (h : s.ref = none) (h2 : s.oneOf ++ s.anyOf ++ s.allOf ≠ []) :
    to_type_ref ctx s
      = .union ((s.oneOf ++ s.anyOf ++ s.allOf).map (to_type_ref ctx))
          (extract_nullable_type s).1 := by
  cases s with
  | mk ref type nullable enum properties required additionalProperties items oneOf anyOf allOf fmt desc dflt =>
    simp only [Schema.ref] at h
    subst h
    simp only [Schema.oneOf, Schema.anyOf, Schema.allOf] at h2 ⊢
    have h3 : ((oneOf ++ anyOf ++ allOf).map (to_type_ref ctx)) ≠ [] := by
      simpa using h2
    rw [to_type_ref.eq_def]
    simp only [attach_map_fst, ← List.map_append]
    have h4 : ((oneOf ++ anyOf ++ allOf).map (to_type_ref ctx)).isEmpty = false := by
      simpa using h3
    rw [h4]
    simp

/-! ## C5 — parameter merging machinery -/

theorem mem_firstKeysAux (l : List (String × String)) (seen : List (String × String))
    (b : String × String) : b ∈ firstKeysAux seen l ↔ b ∈ l ∧ b ∉ seen := by
  induction l generalizing seen with
  | nil => simp [firstKeysAux]
  | cons k rest ih =>
    have hc : seen.contains k = decide (k ∈ seen) := List.elem_eq_mem k seen
    by_cases hk : k ∈ seen
    · rw [firstKeysAux, hc, decide_eq_true hk]
      rw [if_pos rfl, ih]
      constructor
      · exact fun ⟨h1, h2⟩ => ⟨List.mem_cons_of_mem k h1, h2⟩
      · rintro ⟨h1, h2⟩
        rcases List.mem_cons.1 h1 with h1 | h1
        · exact absurd (h1 ▸ hk) h2
        · exact ⟨h1, h2⟩
    · rw [firstKeysAux, hc, decide_eq_false hk]
      simp only [Bool.false_eq_true, if_neg, not_false_iff, List.mem_cons, ih]
      constructor
      · rintro (rfl | ⟨h1, h2⟩)
        · exact ⟨Or.inl rfl, hk⟩
        · exact ⟨Or.inr h1, fun hb => h2 (Or.inr hb)⟩
      · rintro ⟨rfl | h1, h2⟩
        · exact Or.inl rfl
        · by_cases hbk : b = k
          · exact Or.inl hbk
          · exact Or.inr ⟨h1, fun hb => hb.elim hbk h2⟩

theorem nodup_firstKeysAux (l : List (String × String)) (seen : List (String × String)) :
    (firstKeysAux seen l).Nodup := by
  induction l generalizing seen with
  | nil => simp [firstKeysAux]
  | cons k rest ih =>
    have hc : seen.contains k = decide (k ∈ seen) := List.elem_eq_mem k seen
    by_cases hk : k ∈ seen
    · rw [firstKeysAux, hc, decide_eq_true hk, if_pos rfl]
      exact ih seen
    · rw [firstKeysAux, hc, decide_eq_false hk]
      simp only [Bool.false_eq_true, if_neg, not_false_iff]
      refine List.nodup_cons.2 ⟨fun hmem => ?_, ih (k :: seen)⟩
      exact ((mem_firstKeysAux rest (k :: seen) k).1 hmem).2 (List.mem_cons_self k seen)

theorem firstKeysAux_append (l : List (String × String)) (seen : List (String × String))
    (a : String × String) :
    firstKeysAux seen (l ++ [a])
      = firstKeysAux seen l ++ (if a ∈ seen ∨ a ∈ l then [] else [a]) := by
  induction l generalizing seen with
  | nil =>
    have hc : seen.contains a = decide (a ∈ seen) := List.elem_eq_mem a seen
    by_cases ha : a ∈ seen
    · simp [firstKeysAux, hc, ha]
    · simp [firstKeysAux, hc, ha]
  | cons k rest ih =>
    by_cases hk : k ∈ seen
    · have hc : seen.contains k = true := by
        simpa [List.elem_eq_mem] using hk
      simp only [List.cons_append, firstKeysAux, hc, List.append_eq]
      rw [if_pos (by trivial), if_pos (by trivial), ih seen]
      congr 1
      refine if_congr ?_ rfl rfl
      simp only [List.mem_cons]
      constructor
      · rintro (h | h)
        · exact Or.inl h
        · exact Or.inr (Or.inr h)
      · rintro (h | rfl | h)
        · exact Or.inl h
        · exact Or.inl hk
        · exact Or.inr h
    · have hc : seen.contains k = false := by
        simpa [List.elem_eq_mem] using hk
      simp only [List.cons_append, firstKeysAux, hc, List.append_eq]
      rw [if_neg Bool.false_ne_true]
      rw [if_neg Bool.false_ne_true]
      rw [ih (k :: seen)]
      rw [List.cons_append]
      congr 1
      congr 1
      refine if_congr ?_ rfl rfl
      simp only [List.mem_cons]
      constructor
      · rintro ((rfl | h) | h)
        · exact Or.inr (Or.inl rfl)
        · exact Or.inl h
        · exact Or.inr (Or.inr h)
      · rintro (h | rfl | h)
        · exact Or.inl (Or.inr h)
        · exact Or.inl (Or.inl rfl)
        · exact Or.inr h

theorem findKeyIdx_none_iff (k : String × String) (l : List Parameter) :
    findKeyIdx k l = none ↔ ∀ q ∈ l, paramKey q ≠ k := by
  induction l with
  | nil => simp [findKeyIdx]
  | cons q rest ih =>
    by_cases hq : (paramKey q == k) = true
    · have hqk : paramKey q = k := by simpa using hq
      simp [findKeyIdx, hq, hqk]
    · have hqk : paramKey q ≠ k := by simpa using hq
      simp [findKeyIdx, hq, ih, hqk]

theorem findKeyIdx_some (k : String × String) (l : List Parameter) (i : Nat)
    (h : findKeyIdx k l = some i) :
    ∃ hh : i < l.length, paramKey (l.get ⟨i, hh⟩) = k := by
  induction l generalizing i with
  | nil => simp [findKeyIdx] at h
  | cons q rest ih =>
    by_cases hq : (paramKey q == k) = true
    · rw [findKeyIdx, if_pos hq] at h
      obtain rfl : (0 : Nat) = i := by simpa using h
      exact ⟨by simp, by simpa using hq⟩
    · rw [findKeyIdx, if_neg hq] at h
      rcases Option.map_eq_some'.1 h with ⟨j, hj, rfl⟩
      obtain ⟨hh, hk2⟩ := ih j hj
      exact ⟨by simpa using hh, by simpa using hk2⟩

theorem list_set_self {α : Type} (l : List α) (i : Nat) (a : α) (h : i < l.length)
    (ha : l.get ⟨i, h⟩ = a) : l.set i a = l := by
  apply List.ext_getElem
  · simp
  · intro j h1 h2
    rw [List.getElem_set]
    split
    · next heq =>
      subst heq
      exact ha.symm
    · rfl

theorem convert_parameter_path_required (x : OASParameter) (ctx : ConversionContext)
    (p : Parameter) (h : convert_parameter x ctx = some p) (hp : p.location = "path") :
    p.required = true := by
  simp only [convert_parameter] at h
  split at h
  · exact Option.noConfusion h
  · split at h
    · exact Option.noConfusion h
    · obtain rfl : _ = p := Option.some.inj h
      simp only at hp ⊢
      simp [hp]

theorem mergeLoop_invariant (cs : List Parameter) :
    ((cs.foldl mergeStep []).map paramKey = firstKeys (cs.map paramKey))
    ∧ ∀ p ∈ cs.foldl mergeStep [], lastWithKey cs (paramKey p) = some p := by
  induction cs using List.reverseRecOn with
  | nil => exact ⟨by simp [firstKeys, firstKeysAux], by simp⟩
  | append_singleton xs c ih =>
    obtain ⟨ihk, ihl⟩ := ih
    have hfold : (xs ++ [c]).foldl mergeStep [] = mergeStep (xs.foldl mergeStep []) c := by
      rw [List.foldl_append]
      rfl
    have hnodup : ((xs.foldl mergeStep []).map paramKey).Nodup := by
      rw [ihk]
      exact nodup_firstKeysAux _ _
    cases hfind : findKeyIdx (paramKey c) (xs.foldl mergeStep []) with
    | none =>
      have hall : ∀ q ∈ xs.foldl mergeStep [], paramKey q ≠ paramKey c :=
        (findKeyIdx_none_iff _ _).1 hfind
      have hnotm : paramKey c ∉ (xs.foldl mergeStep []).map paramKey := by
        intro hmem
        obtain ⟨q, hq, hqe⟩ := List.mem_map.1 hmem
        exact hall q hq hqe
      have hnotxs : paramKey c ∉ xs.map paramKey := by
        intro hmem
        exact hnotm (ihk ▸ (mem_firstKeysAux (xs.map paramKey) [] (paramKey c)).2 ⟨hmem, by simp⟩)
      have hstep : mergeStep (xs.foldl mergeStep []) c = xs.foldl mergeStep [] ++ [c] := by
        rw [mergeStep, hfind]
      constructor
      · rw [hfold, hstep, List.map_append, List.map_append, ihk]
        simp only [List.map_cons, List.map_nil]
        rw [firstKeys, firstKeys, firstKeysAux_append]
        simp [hnotxs]
      · intro p hp
        rw [hfold, hstep] at hp
        rcases List.mem_append.1 hp with hp | hp
        · have hne : paramKey c ≠ paramKey p := fun he => hall p hp he.symm
          rw [lastWithKey, List.filter_append]
          have hfc : List.filter (fun q => paramKey q == paramKey p) [c] = [] := by
            simp [hne]
          rw [hfc, List.append_nil]
          exact ihl p hp
        · obtain rfl : p = c := by simpa using hp
          rw [lastWithKey, List.filter_append]
          have hfc : List.filter (fun q => paramKey q == paramKey p) [p] = [p] := by
            simp
          rw [hfc, List.getLast?_concat]
    | some i =>
      obtain ⟨hi, hkey⟩ := findKeyIdx_some _ _ _ hfind
      have hstep : mergeStep (xs.foldl mergeStep []) c = (xs.foldl mergeStep []).set i c := by
        rw [mergeStep, hfind]
      have hmaplen : i < ((xs.foldl mergeStep []).map paramKey).length := by
        simpa using hi
      have hgetmap : ((xs.foldl mergeStep []).map paramKey).get ⟨i, hmaplen⟩ = paramKey c := by
        simp only [List.get_eq_getElem, List.getElem_map]
        exact hkey
      have hsetkeys : ((xs.foldl mergeStep []).set i c).map paramKey
          = (xs.foldl mergeStep []).map paramKey := by
        rw [List.map_set]
        exact list_set_self _ i (paramKey c) hmaplen hgetmap
      have hcin : paramKey c ∈ xs.map paramKey := by
        have h1 : paramKey c ∈ (xs.foldl mergeStep []).map paramKey := by
          rw [← hgetmap]
          exact List.get_mem _ _ _
        have h2 : paramKey c ∈ firstKeys (xs.map paramKey) := by
          rw [← ihk]
          exact h1
        exact ((mem_firstKeysAux (xs.map paramKey) [] (paramKey c)).1 h2).1
      constructor
      · rw [hfold, hstep, hsetkeys, ihk, List.map_append]
        simp only [List.map_cons, List.map_nil]
        rw [firstKeys, firstKeys, firstKeysAux_append]
        simp [hcin]
      · intro p hp
        rw [hfold, hstep] at hp
        obtain ⟨j, hj, hpj⟩ := List.mem_iff_getElem.1 hp
        by_cases hij : i = j
        · subst hij
          have hpc : c = p := by
            rw [← hpj, List.getElem_set, if_pos rfl]
          rw [lastWithKey, List.filter_append]
          have hfc : List.filter (fun q => paramKey q == paramKey p) [c] = [c] := by
            simp [hpc]
          rw [hfc, List.getLast?_concat, hpc]
        · have hjlen2 : j < (xs.foldl mergeStep []).length := by
            simpa using hj
          have hpm2 : (xs.foldl mergeStep [])[j] = p := by
            rw [← hpj, List.getElem_set, if_neg hij]
          have hpmem : p ∈ xs.foldl mergeStep [] :=
            hpm2 ▸ List.getElem_mem hjlen2
          have hjlen : j < ((xs.foldl mergeStep []).map paramKey).length := by
            simpa using hj
          have hne : paramKey p ≠ paramKey c := by
            intro he
            apply hij
            have hgj : ((xs.foldl mergeStep []).map paramKey).get ⟨j, hjlen⟩ = paramKey c := by
              simp only [List.get_eq_getElem, List.getElem_map]
              rw [hpm2]
              exact he
            have hfin := hnodup.get_inj_iff.1 (hgj.trans hgetmap.symm)
            have : j = i := by simpa using hfin
            exact this.symm
          have hne2 : paramKey c ≠ paramKey p := fun he => hne he.symm
          rw [lastWithKey, List.filter_append]
          have hfc : List.filter (fun q => paramKey q == paramKey p) [c] = [] := by
            simp [hne2]
          rw [hfc, List.append_nil]
          exact ihl p hpmem

/-- **C5**: parameters merge keyed by `(name, location)` — the merged list
carries each key once, at the position of the key's first occurrence in the
concatenated (path-level then operation-level) converted sequence, holding
the last-declared value for that key; `required` is forced for every path
parameter; and the concrete example — path-level `{name: "id", in: "path"}`
plus operation-level `{name: "id", in: "path", required: false}` — merges to
exactly one required path parameter at the path-level entry's position. -/
theorem parameter_merge (pl ol : List OASParameter) (ctx : ConversionContext) :
    (merge_parameters pl ol ctx).map paramKey
        = firstKeys (((pl ++ ol).filterMap fun x => convert_parameter x ctx).map paramKey)
    ∧ ((merge_parameters pl ol ctx).map paramKey).Nodup
    ∧ (∀ p ∈ merge_parameters pl ol ctx,
        lastWithKey ((pl ++ ol).filterMap fun x => convert_parameter x ctx) (paramKey p)
          = some p)
    ∧ (∀ p ∈ merge_parameters pl ol ctx, p.location = "path" → p.required = true)
    ∧ merge_parameters [pathIdParameter] [opIdParameter] ctx = [idPathMergedParam] := by
  obtain ⟨h1, h2⟩ := mergeLoop_invariant ((pl ++ ol).filterMap fun x => convert_parameter x ctx)
  refine ⟨h1, ?_, h2, ?_, ?_⟩
  · rw [show (merge_parameters pl ol ctx).map paramKey
        = firstKeys (((pl ++ ol).filterMap fun x => convert_parameter x ctx).map paramKey)
      from h1]
    exact nodup_firstKeysAux _ _
  · intro p hp hloc
    have hlast := h2 p hp
    have hpin : p ∈ (pl ++ ol).filterMap fun x => convert_parameter x ctx :=
      List.mem_of_mem_filter (List.mem_of_mem_getLast? hlast)
    obtain ⟨x, _, hx⟩ := List.mem_filterMap.1 hpin
    exact convert_parameter_path_required x ctx p hx hloc
  · rfl

theorem parameter_merge_witness :
    idPathMergedParam ∈ merge_parameters [pathIdParameter] [opIdParameter] ⟨[], []⟩
    ∧ idPathMergedParam.location = "path"
    ∧ idPathMergedParam.required = true := by
  have hm : idPathMergedParam ∈ merge_parameters [pathIdParameter] [opIdParameter] ⟨[], []⟩ := by
    rw [(parameter_merge [pathIdParameter] [opIdParameter] ⟨[], []⟩).2.2.2.2]
    exact List.mem_singleton.mpr rfl
  exact ⟨hm, rfl,
    (parameter_merge [pathIdParameter] [opIdParameter] ⟨[], []⟩).2.2.2.1 idPathMergedParam hm rfl⟩

theorem union_flattening_witness :
    unionExampleSchema.ref = none
    ∧ unionExampleSchema.oneOf ++ unionExampleSchema.anyOf ++ unionExampleSchema.allOf
        = [scalarSchema "string", scalarSchema "integer"]
    ∧ to_type_ref ⟨[], []⟩ unionExampleSchema
        = .union [to_type_ref ⟨[], []⟩ (scalarSchema "string"),
                  to_type_ref ⟨[], []⟩ (scalarSchema "integer")]
            (extract_nullable_type unionExampleSchema).1 :=
  ⟨rfl, rfl, by
    have hu := union_flattening ⟨[], []⟩ unionExampleSchema rfl
      (by simp [unionExampleSchema, Schema.oneOf, Schema.anyOf, Schema.allOf])
    simpa [unionExampleSchema, Schema.oneOf, Schema.anyOf, Schema.allOf] using hu⟩

/-! ## C4 — model and enum name-spaces are mutually exclusive -/

theorem models_names_eq (spec : OpenAPI) :
    (convert_openapi spec).models.map Model.name = sortNames (modelNames spec.schemas) := by
  simp only [convert_openapi, List.map_map]
  exact (List.map_congr_left fun a _ => rfl).trans (List.map_id _)

theorem enums_names_eq (spec : OpenAPI) :
    (convert_openapi spec).enums.map Enum.name = sortNames (enumNames spec.schemas) := by
  simp only [convert_openapi, List.map_map]
  exact (List.map_congr_left fun a _ => rfl).trans (List.map_id _)

theorem modelNames_not_enumName (schemas : List (String × Schema)) (n : String)
    (h : n ∈ modelNames schemas) : n ∉ enumNames schemas := by
  intro he
  rw [modelNames, List.mem_dedup] at h
  obtain ⟨p, hp, rfl⟩ := List.mem_map.1 h
  have hpred := (List.mem_filter.1 hp).2
  rw [Bool.and_eq_true] at hpred
  have hcont := hpred.2
  rw [Bool.not_eq_true'] at hcont
  have hx : (enumNames schemas).contains p.1 = decide (p.1 ∈ enumNames schemas) :=
    List.elem_eq_mem _ _
  rw [hx, decide_eq_false_iff_not] at hcont
  exact hcont he

/-- **C4**: no schema name is registered both as a model and as an enum —
`model_names` excludes every name classified as an enum, and the registries
draw their names from those two disjoint sets. -/
theorem model_enum_disjoint (spec : OpenAPI) (n : String)
    (hm : n ∈ (convert_openapi spec).models.map Model.name) :
    n ∉ (convert_openapi spec).enums.map Enum.name := by
  intro he
  rw [models_names_eq, sortNames, List.mem_mergeSort] at hm
  rw [enums_names_eq, sortNames, List.mem_mergeSort] at he
  rw [enumNames, List.mem_dedup] at he
  exact modelNames_not_enumName spec.schemas n hm (by rw [enumNames, List.mem_dedup]; exact he)

theorem model_enum_disjoint_witness :
    "Pet" ∈ (convert_openapi sampleDoc).models.map Model.name
    ∧ "Pet" ∉ (convert_openapi sampleDoc).enums.map Enum.name := by
  have hm : "Pet" ∈ (convert_openapi sampleDoc).models.map Model.name := by
    rw [models_names_eq]
    have h1 : modelNames sampleDoc.schemas = ["Pet"] := by decide
    rw [h1, sortNames, List.mergeSort_singleton]
    exact List.mem_singleton.mpr rfl
  exact ⟨hm, model_enum_disjoint sampleDoc "Pet" hm⟩

/-! ## C3 — determinism and registry ordering -/

theorem enumNames_perm (s1 s2 : List (String × Schema)) (h : s1.Perm s2) :
    (enumNames s1).Perm (enumNames s2) :=
  ((h.filter _).map _).dedup

theorem enumNames_mem_iff (s1 s2 : List (String × Schema)) (h : s1.Perm s2) (n : String) :
    n ∈ enumNames s1 ↔ n ∈ enumNames s2 :=
  (enumNames_perm s1 s2 h).mem_iff

theorem enumNames_contains_eq (s1 s2 : List (String × Schema)) (h : s1.Perm s2) (n : String) :
    (enumNames s1).contains n = (enumNames s2).contains n := by
  have h1 : (enumNames s1).contains n = decide (n ∈ enumNames s1) := List.elem_eq_mem _ _
  have h2 : (enumNames s2).contains n = decide (n ∈ enumNames s2) := List.elem_eq_mem _ _
  rw [h1, h2]
  exact decide_eq_decide.2 (enumNames_mem_iff s1 s2 h n)

theorem modelNames_perm (s1 s2 : List (String × Schema)) (h : s1.Perm s2) :
    (modelNames s1).Perm (modelNames s2) := by
  rw [modelNames, modelNames]
  refine List.Perm.dedup (List.Perm.map _ ?_)
  have hc : List.filter (fun p => schema_is_model p.2 && !(enumNames s2).contains p.1) s2
      = List.filter (fun p => schema_is_model p.2 && !(enumNames s1).contains p.1) s2 := by
    refine List.filter_congr fun x _ => ?_
    rw [enumNames_contains_eq s1 s2 h]
  rw [hc]
  exact h.filter _

theorem modelNames_mem_iff (s1 s2 : List (String × Schema)) (h : s1.Perm s2) (n : String) :
    n ∈ modelNames s1 ↔ n ∈ modelNames s2 :=
  (modelNames_perm s1 s2 h).mem_iff

theorem sortNames_sorted (l : List String) : List.Sorted (· ≤ ·) (sortNames l) :=
  List.sorted_mergeSort' l

theorem sortNames_eq_of_perm (l1 l2 : List String) (h : l1.Perm l2) :
    sortNames l1 = sortNames l2 := by
  refine List.eq_of_perm_of_sorted ?_ (sortNames_sorted l1) (sortNames_sorted l2)
  exact (List.mergeSort_perm l1 _).trans (h.trans (List.mergeSort_perm l2 _).symm)

theorem lookup_perm {β : Type} (k : String) {l1 l2 : List (String × β)} (h : l1.Perm l2) :
    (l1.map Prod.fst).Nodup → l1.lookup k = l2.lookup k := by
  induction h with
  | nil => exact fun _ => rfl
  | cons x h ih =>
    intro hnd
    obtain ⟨xk, xv⟩ := x
    by_cases hxk : (k == xk) = true
    · simp [List.lookup, hxk]
    · have hxk2 : (k == xk) = false := Bool.not_eq_true _ ▸ hxk
      simp only [List.lookup, hxk2]
      refine ih ?_
      rw [List.map_cons] at hnd
      exact (List.nodup_cons.1 hnd).2
  | swap x y t =>
    intro hnd
    obtain ⟨xk, xv⟩ := x
    obtain ⟨yk, yv⟩ := y
    have hkne : yk ≠ xk := by
      rw [List.map_cons, List.map_cons] at hnd
      have h1 := (List.nodup_cons.1 hnd).1
      intro he
      exact h1 (by rw [he]; exact List.mem_cons_self _ _)
    by_cases h1 : (k == yk) = true
    · have hyk : k = yk := by simpa using h1
      have h2 : (k == xk) = false := by
        rw [hyk]
        exact beq_eq_false_iff_ne.2 hkne
      simp [List.lookup, h1, h2]
    · have h1f : (k == yk) = false := Bool.not_eq_true _ ▸ h1
      by_cases h2 : (k == xk) = true
      · simp [List.lookup, h1f, h2]
      · have h2f : (k == xk) = false := Bool.not_eq_true _ ▸ h2
        simp [List.lookup, h1f, h2f]
  | trans h1 h2 ih1 ih2 =>
    intro hnd
    exact (ih1 hnd).trans (ih2 (((h1.map Prod.fst).nodup_iff).1 hnd))

theorem lookupSchema_perm (s1 s2 : List (String × Schema)) (h : s1.Perm s2)
    (hnd : (s1.map Prod.fst).Nodup) (n : String) :
    lookupSchema s1 n = lookupSchema s2 n := by
  rw [lookupSchema, lookupSchema, lookup_perm n h hnd]

theorem filterMap_map_sublist {α β γ : Type} (l : List α) (f : α → Option β) (g : β → γ)
    (k : α → γ) (hfg : ∀ a b, f a = some b → g b = k a) :
    ((l.filterMap f).map g).Sublist (l.map k) := by
  induction l with
  | nil => simp
  | cons a t ih =>
    cases hfa : f a with
    | none =>
      rw [List.filterMap_cons, hfa, List.map_cons]
      exact ih.cons _
    | some b =>
      rw [List.filterMap_cons, hfa, List.map_cons, List.map_cons, hfg a b hfa]
      exact ih.cons₂ _

theorem keys_nodup_unique {β : Type} (l : List (String × β)) (hnd : (l.map Prod.fst).Nodup)
    (k : String) (a b : β) (ha : (k, a) ∈ l) (hb : (k, b) ∈ l) : a = b := by
  induction l with
  | nil => cases ha
  | cons x t ih =>
    rw [List.map_cons] at hnd
    obtain ⟨hx, hnd2⟩ := List.nodup_cons.1 hnd
    rcases List.mem_cons.1 ha with ha1 | ha1
    · rcases List.mem_cons.1 hb with hb1 | hb1
      · exact (Prod.ext_iff.1 (ha1.trans hb1.symm)).2
      · exfalso
        apply hx
        have hxk : x.1 = k := by rw [← ha1]
        rw [hxk]
        exact List.mem_map.2 ⟨(k, b), hb1, rfl⟩
    · rcases List.mem_cons.1 hb with hb1 | hb1
      · exfalso
        apply hx
        have hxk : x.1 = k := by rw [← hb1]
        rw [hxk]
        exact List.mem_map.2 ⟨(k, a), ha1, rfl⟩
      · exact ih hnd2 ha1 hb1

theorem contains_congr (l1 l2 : List String) (h : ∀ n, n ∈ l1 ↔ n ∈ l2) (n : String) :
    l1.contains n = l2.contains n := by
  have a1 : l1.contains n = decide (n ∈ l1) := List.elem_eq_mem _ _
  have a2 : l2.contains n = decide (n ∈ l2) := List.elem_eq_mem _ _
  rw [a1, a2]
  exact decide_eq_decide.2 (h n)

/-- `_to_type_ref` only consults the classification context through name
membership, so two contexts agreeing on membership resolve every schema
identically. -/
theorem to_type_ref_congr (ctx1 ctx2 : ConversionContext)
    (hme : ∀ n, n ∈ ctx1.enum_names ↔ n ∈ ctx2.enum_names)
    (hmm : ∀ n, n ∈ ctx1.model_names ↔ n ∈ ctx2.model_names) :
    ∀ (m : Nat) (s : Schema), sizeOf s ≤ m → to_type_ref ctx1 s = to_type_ref ctx2 s := by
  intro m
  induction m with
  | zero =>
    intro s hs
    exfalso
    cases s with
    | mk ref type nullable enum properties required additionalProperties items oneOf anyOf allOf fmt desc dflt =>
      rw [Schema.mk.sizeOf_spec] at hs
      omega
  | succ m ih =>
    intro s hs
    cases s with
    | mk ref type nullable enum properties required additionalProperties items oneOf anyOf allOf fmt desc dflt =>
      rw [Schema.mk.sizeOf_spec] at hs
      cases ref with
      | some r =>
        rw [to_type_ref_of_ref ctx1
            (Schema.mk (some r) type nullable enum properties required additionalProperties
              items oneOf anyOf allOf fmt desc dflt) r rfl,
          to_type_ref_of_ref ctx2
            (Schema.mk (some r) type nullable enum properties required additionalProperties
              items oneOf anyOf allOf fmt desc dflt) r rfl]
        cases hx : extract_schema_ref_name r with
        | none => rfl
        | some n =>
          by_cases hn : (n != "") = true
          · have hce := contains_congr ctx1.enum_names ctx2.enum_names hme n
            have hcm := contains_congr ctx1.model_names ctx2.model_names hmm n
            simp only [hn, hce, hcm]
          · have hnf : (n != "") = false := Bool.not_eq_true _ ▸ hn
            simp only [hnf, Bool.false_eq_true, if_neg, not_false_iff]
      | none =>
        have hone : ∀ v ∈ oneOf, sizeOf v ≤ m := fun v hv => by
          have h1 := List.sizeOf_lt_of_mem hv
          omega
        have hany : ∀ v ∈ anyOf, sizeOf v ≤ m := fun v hv => by
          have h1 := List.sizeOf_lt_of_mem hv
          omega
        have hall : ∀ v ∈ allOf, sizeOf v ≤ m := fun v hv => by
          have h1 := List.sizeOf_lt_of_mem hv
          omega
        have hmape : ∀ (l : List Schema), (∀ v ∈ l, sizeOf v ≤ m) →
            l.map (to_type_ref ctx1) = l.map (to_type_ref ctx2) :=
          fun l hl => List.map_congr_left fun v hv => ih v (hl v hv)
        rw [to_type_ref.eq_def, to_type_ref.eq_def]
        simp only [attach_map_fst]
        rw [hmape oneOf hone, hmape anyOf hany, hmape allOf hall]
        split
        · rfl
        · split
          · cases items with
            | some i =>
              have hi : sizeOf i ≤ m := by
                have : sizeOf (some i) = 1 + sizeOf i := by simp
                omega
              simp only [ih i hi]
            | none => rfl
          · split
            · rcases additionalProperties with _ | b | sub
              · rfl
              · rfl
              · have hsub : sizeOf sub ≤ m := by
                  have h1 : sizeOf (some (Sum.inr sub : Bool ⊕ Schema))
                      = 1 + (1 + sizeOf sub) := by simp
                  omega
                simp only [ih sub hsub]
            · rfl

theorem convert_model_congr (n : String) (s : Schema) (ctx1 ctx2 : ConversionContext)
    (hme : ∀ x, x ∈ ctx1.enum_names ↔ x ∈ ctx2.enum_names)
    (hmm : ∀ x, x ∈ ctx1.model_names ↔ x ∈ ctx2.model_names) :
    convert_model n s ctx1 = convert_model n s ctx2 := by
  have ht : ∀ (x : Schema), to_type_ref ctx1 x = to_type_ref ctx2 x :=
    fun x => to_type_ref_congr ctx1 ctx2 hme hmm (sizeOf x) x le_rfl
  rw [convert_model, convert_model]
  simp only [ht]

theorem convert_models_eq_of_perm (s1 s2 : List (String × Schema)) (h : s1.Perm s2)
    (hnd : (s1.map Prod.fst).Nodup) :
    (sortNames (modelNames s2)).map
        (fun n => convert_model n (lookupSchema s2 n) (conversionContext s2))
      = (sortNames (modelNames s1)).map
          (fun n => convert_model n (lookupSchema s1 n) (conversionContext s1)) := by
  rw [sortNames_eq_of_perm _ _ (modelNames_perm s1 s2 h).symm]
  refine List.map_congr_left fun n _ => ?_
  rw [← lookupSchema_perm s1 s2 h hnd n]
  exact convert_model_congr n _ (conversionContext s2) (conversionContext s1)
    (fun x => (enumNames_mem_iff s1 s2 h x).symm)
    (fun x => (modelNames_mem_iff s1 s2 h x).symm)

theorem convert_enums_eq_of_perm (s1 s2 : List (String × Schema)) (h : s1.Perm s2)
    (hnd : (s1.map Prod.fst).Nodup) :
    (sortNames (enumNames s2)).map (fun n => convert_enum n (lookupSchema s2 n))
      = (sortNames (enumNames s1)).map (fun n => convert_enum n (lookupSchema s1 n)) := by
  rw [sortNames_eq_of_perm _ _ (enumNames_perm s1 s2 h).symm]
  refine List.map_congr_left fun n _ => ?_
  rw [← lookupSchema_perm s1 s2 h hnd n]

/-- **C3**: converting the same document twice yields the same `APISchema`;
in every result the models and enums registries are sorted lexicographically
by name and do not depend on the iteration order of the (duplicate-free)
source schema map; endpoints and webhooks appear in source declaration order
(each registry's key sequence is a sublist of the source key sequence), and
each endpoint's operation list is exactly the conversion of its source path
item. -/
theorem conversion_determinism (spec : OpenAPI) (schemas2 : List (String × Schema))
    (hperm : spec.schemas.Perm schemas2)
    (hnodup : (spec.schemas.map Prod.fst).Nodup) :
    convert_openapi spec = convert_openapi spec
    ∧ List.Sorted (· ≤ ·) ((convert_openapi spec).models.map Model.name)
    ∧ List.Sorted (· ≤ ·) ((convert_openapi spec).enums.map Enum.name)
    ∧ (convert_openapi { spec with schemas := schemas2 }).models = (convert_openapi spec).models
    ∧ (convert_openapi { spec with schemas := schemas2 }).enums = (convert_openapi spec).enums
    ∧ ((convert_openapi spec).endpoints.map Endpoint.path).Sublist (spec.paths.map Prod.fst)
    ∧ ((convert_openapi spec).webhooks.map Webhook.name).Sublist (spec.webhooks.map Prod.fst)
    ∧ ∀ e ∈ (convert_openapi spec).endpoints, ∃ item, (e.path, item) ∈ spec.paths
        ∧ e.operations = convert_path_item e.path item (conversionContext spec.schemas) false := by
  refine ⟨rfl, ?_, ?_, ?_, ?_, ?_, ?_, ?_⟩
  · rw [models_names_eq]
    exact sortNames_sorted _
  · rw [enums_names_eq]
    exact sortNames_sorted _
  · exact convert_models_eq_of_perm spec.schemas schemas2 hperm hnodup
  · exact convert_enums_eq_of_perm spec.schemas schemas2 hperm hnodup
  · refine filterMap_map_sublist spec.paths _ Endpoint.path Prod.fst ?_
    intro a b hab
    by_cases hi : (convert_path_item a.1 a.2 (conversionContext spec.schemas) false).isEmpty
    · rw [if_pos hi] at hab
      exact Option.noConfusion hab
    · rw [if_neg hi] at hab
      obtain rfl : _ = b := Option.some.inj hab
      rfl
  · refine filterMap_map_sublist spec.webhooks _ Webhook.name Prod.fst ?_
    intro a b hab
    by_cases hi : (convert_path_item a.1 a.2 (conversionContext spec.schemas) true).isEmpty
    · rw [if_pos hi] at hab
      exact Option.noConfusion hab
    · rw [if_neg hi] at hab
      obtain rfl : _ = b := Option.some.inj hab
      rfl
  · intro e he
    obtain ⟨p, hp, hfp⟩ := List.mem_filterMap.1 he
    by_cases hi : (convert_path_item p.1 p.2 (conversionContext spec.schemas) false).isEmpty
    · rw [if_pos hi] at hfp
      exact Option.noConfusion hfp
    · rw [if_neg hi] at hfp
      obtain rfl : _ = e := Option.some.inj hfp
      exact ⟨p.2, by simpa using hp, rfl⟩

theorem conversion_determinism_witness :
    sampleDoc.schemas.Perm sampleDoc.schemas
    ∧ (sampleDoc.schemas.map Prod.fst).Nodup
    ∧ List.Sorted (· ≤ ·) ((convert_openapi sampleDoc).models.map Model.name)
    ∧ (convert_openapi { sampleDoc with schemas := sampleDoc.schemas }).models
        = (convert_openapi sampleDoc).models :=
  ⟨List.Perm.refl _, by decide,
   (conversion_determinism sampleDoc sampleDoc.schemas (List.Perm.refl _) (by decide)).2.1,
   (conversion_determinism sampleDoc sampleDoc.schemas (List.Perm.refl _) (by decide)).2.2.2.1⟩

/-! ## C10 — path items and webhooks with no operations are omitted -/

/-- **C10**: every emitted endpoint and webhook has at least one operation,
and a source path item (or named webhook) whose conversion yields no
operation produces no node at all — its key is absent from the registry. -/
theorem empty_items_omitted (spec : OpenAPI) :
    (∀ e ∈ (convert_openapi spec).endpoints, e.operations ≠ [])
    ∧ (∀ w ∈ (convert_openapi spec).webhooks, w.operations ≠ [])
    ∧ ((spec.paths.map Prod.fst).Nodup → ∀ path item, (path, item) ∈ spec.paths →
        convert_path_item path item (conversionContext spec.schemas) false = [] →
        path ∉ (convert_openapi spec).endpoints.map Endpoint.path)
    ∧ ((spec.webhooks.map Prod.fst).Nodup → ∀ nm item, (nm, item) ∈ spec.webhooks →
        convert_path_item nm item (conversionContext spec.schemas) true = [] →
        nm ∉ (convert_openapi spec).webhooks.map Webhook.name) := by
  refine ⟨?_, ?_, ?_, ?_⟩
  · intro e he
    obtain ⟨p, hp, hfp⟩ := List.mem_filterMap.1 he
    by_cases hi : (convert_path_item p.1 p.2 (conversionContext spec.schemas) false).isEmpty
    · rw [if_pos hi] at hfp
      exact Option.noConfusion hfp
    · rw [if_neg hi] at hfp
      obtain rfl : _ = e := Option.some.inj hfp
      exact fun hc => hi (by simp only at hc; rw [hc]; rfl)
  · intro w hw
    obtain ⟨p, hp, hfp⟩ := List.mem_filterMap.1 hw
    by_cases hi : (convert_path_item p.1 p.2 (conversionContext spec.schemas) true).isEmpty
    · rw [if_pos hi] at hfp
      exact Option.noConfusion hfp
    · rw [if_neg hi] at hfp
      obtain rfl : _ = w := Option.some.inj hfp
      exact fun hc => hi (by simp only at hc; rw [hc]; rfl)
  · intro hnd path item hmem hempty hin
    obtain ⟨e, he, hpe⟩ := List.mem_map.1 hin
    obtain ⟨p, hp, hfp⟩ := List.mem_filterMap.1 he
    by_cases hi : (convert_path_item p.1 p.2 (conversionContext spec.schemas) false).isEmpty
    · rw [if_pos hi] at hfp
      exact Option.noConfusion hfp
    · rw [if_neg hi] at hfp
      obtain rfl : _ = e := Option.some.inj hfp
      have hp1 : p.1 = path := hpe
      have hp2 : (path, p.2) ∈ spec.paths := by
        rw [← hp1]
        simpa using hp
      have hitem : item = p.2 := keys_nodup_unique spec.paths hnd path item p.2 hmem hp2
      apply hi
      rw [show p.1 = path from hp1, ← hitem, hempty]
      rfl
  · intro hnd nm item hmem hempty hin
    obtain ⟨w, hw, hpw⟩ := List.mem_map.1 hin
    obtain ⟨p, hp, hfp⟩ := List.mem_filterMap.1 hw
    by_cases hi : (convert_path_item p.1 p.2 (conversionContext spec.schemas) true).isEmpty
    · rw [if_pos hi] at hfp
      exact Option.noConfusion hfp
    · rw [if_neg hi] at hfp
      obtain rfl : _ = w := Option.some.inj hfp
      have hp1 : p.1 = nm := hpw
      have hp2 : (nm, p.2) ∈ spec.webhooks := by
        rw [← hp1]
        simpa using hp
      have hitem : item = p.2 := keys_nodup_unique spec.webhooks hnd nm item p.2 hmem hp2
      apply hi
      rw [show p.1 = nm from hp1, ← hitem, hempty]
      rfl

theorem empty_items_omitted_witness :
    (sampleDoc.paths.map Prod.fst).Nodup
    ∧ ("/empty", emptyPathItem) ∈ sampleDoc.paths
    ∧ convert_path_item ("/empty") emptyPathItem (conversionContext sampleDoc.schemas) false = []
    ∧ "/empty" ∉ (convert_openapi sampleDoc).endpoints.map Endpoint.path := by
  have h1 : (sampleDoc.paths.map Prod.fst).Nodup := by decide
  have h2 : ("/empty", emptyPathItem) ∈ sampleDoc.paths := List.mem_cons_self _ _
  have h3 : convert_path_item ("/empty") emptyPathItem (conversionContext sampleDoc.schemas) false
      = [] := rfl
  exact ⟨h1, h2, h3,
    (empty_items_omitted sampleDoc).2.2.1 h1 ("/empty") emptyPathItem h2 h3⟩

end Retcon
